import Mathlib

/-!
# Verification of the IKNA spaced-repetition core

Shallow embedding of the SM-2 scheduler (`src/client/src/utils/spacedRepetition.ts`)
and the round engine (`src/client/src/App.tsx`) of the IKNA flashcard app,
with theorems settling the frozen claims about the natural-language spec.

Modelling conventions:
* JavaScript numbers that only ever hold integer values in this code
  (`interval`, timestamps, counters) are modelled as `ℤ`/`ℕ`; `easeFactor`,
  the one genuinely fractional quantity, is modelled as `ℚ`.
* `Date.now()` is an ambient input of the program; it is modelled as an
  injected parameter `now : ℤ` (epoch milliseconds).  The two `Date.now()`
  reads inside one `reviewCard` invocation are modelled as the same instant.
* `Math.round` rounds half toward +∞, i.e. `⌊x + 1/2⌋`.
* JavaScript division, which produces the non-finite values NaN/±Infinity
  when the divisor is 0, is modelled as `Option ℚ` with `none` standing for
  a non-finite result.
-/

-- Let the elaborator evaluate concrete `ℚ` arithmetic (these operations are
-- sealed by default; the kernel treats them as ordinary definitions).
unseal Rat.sub Rat.mul Rat.add Rat.inv Rat.ofScientific

namespace Ikna

/-- The four rating tokens (`src/client/src/types/index.ts`). -/
inductive Rating where
  | again
  | hard
  | good
  | easy
deriving DecidableEq, Repr

/-- A flashcard, embedding the `Flashcard` interface of
`src/client/src/types/index.ts`.  `easy` is the "retired" flag of the spec.
`lastReviewed` is optional in the TypeScript interface (absent on a freshly
created card), hence `Option ℤ`. -/
structure Card where
  id : String
  question : String
  answer : String
  repetitions : ℕ
  easeFactor : ℚ
  interval : ℤ
  dueDate : ℤ
  easy : Bool
  createdAt : ℤ
  lastReviewed : Option ℤ
deriving DecidableEq, Repr

/-- `INITIAL_EASE_FACTOR` (`spacedRepetition.ts`). -/
def INITIAL_EASE_FACTOR : ℚ := 2.5

/-- `MIN_EASE_FACTOR` (`spacedRepetition.ts`). -/
def MIN_EASE_FACTOR : ℚ := 1.3

/-- `ONE_DAY_MS = 24 * 60 * 60 * 1000` (`spacedRepetition.ts`). -/
def ONE_DAY_MS : ℤ := 24 * 60 * 60 * 1000

/-- JavaScript `Math.round`: rounds half toward positive infinity,
`⌊q + 1/2⌋`, written with `Rat.floor` so the kernel can evaluate it. -/
def jsRound (q : ℚ) : ℤ := (q + 1/2).floor

/-- JavaScript `Math.max` on two (finite) numbers, written with `if` so the
kernel can evaluate it. -/
def jsMax (a b : ℚ) : ℚ := if a ≤ b then b else a

/-- The SM-2 scheduler `reviewCard(card, rating)` of
`src/client/src/utils/spacedRepetition.ts` (lines 16-53).  The ambient
`Date.now()` is the injected parameter `now`. -/
def reviewCard (card : Card) (rating : Rating) (now : ℤ) : Card :=
  let updated :=
    match rating with
    | Rating.again =>
        { card with
          interval := 1
          repetitions := 0
          easeFactor := jsMax MIN_EASE_FACTOR (card.easeFactor - 0.2) }
    | Rating.hard =>
        { card with
          interval := max 1 (jsRound ((card.interval : ℚ) * 1.2))
          easeFactor := jsMax MIN_EASE_FACTOR (card.easeFactor - 0.15) }
    | Rating.good =>
        { card with
          repetitions := card.repetitions + 1
          interval := max 1 (jsRound ((card.interval : ℚ) * card.easeFactor)) }
    | Rating.easy =>
        let ef := card.easeFactor + 0.15
        { card with
          repetitions := card.repetitions + 1
          easeFactor := ef
          interval := max 1 (jsRound ((card.interval : ℚ) * ef * 1.3))
          easy := true }
  { updated with
    dueDate := now + updated.interval * ONE_DAY_MS
    lastReviewed := some now }

/-- `createFlashcard(question, answer)` of `spacedRepetition.ts`; the
randomly generated id and the ambient `Date.now()` are injected. -/
def createFlashcard (id question answer : String) (now : ℤ) : Card :=
  { id := id
    question := question
    answer := answer
    repetitions := 0
    easeFactor := INITIAL_EASE_FACTOR
    interval := 0
    dueDate := now
    easy := false
    createdAt := now
    lastReviewed := none }

/-- `isCardDue(card)` of `spacedRepetition.ts`, with `Date.now()` injected. -/
def isCardDue (card : Card) (now : ℤ) : Bool := card.dueDate ≤ now

/-- `getDueCards(cards)` of `spacedRepetition.ts`. -/
def getDueCards (cards : List Card) (now : ℤ) : List Card :=
  cards.filter (fun c => isCardDue c now)

/-- JavaScript division as used by `calculateStats`: dividing by `0` yields a
non-finite value (`NaN` here, since every numerator is then `0` as well),
modelled as `none`. -/
def jsDiv (a b : ℚ) : Option ℚ := if b = 0 then none else some (a / b)

/-- Result record of `calculateStats` (`spacedRepetition.ts`, lines 87-102).
The three average/progress fields are `Option ℚ` because the source computes
them by unguarded division (`none` = the division was by zero, i.e. the
JavaScript value is `NaN`). -/
structure Stats where
  total : ℕ
  learned : ℕ
  due : ℕ
  averageEaseFactor : Option ℚ
  averageInterval : Option ℚ
  learningProgress : Option ℚ
deriving DecidableEq, Repr

/-- `calculateStats(cards)` of `spacedRepetition.ts` (lines 87-102), with
`Date.now()` (reached through `getDueCards`/`isCardDue`) injected as `now`.
`learningProgress = (learned / total) * 100`: a `NaN` quotient stays `NaN`
after the multiplication, hence the `Option.map`. -/
def calculateStats (cards : List Card) (now : ℤ) : Stats :=
  let total := cards.length
  let learned := (cards.filter (fun c => c.easy)).length
  let due := (getDueCards cards now).length
  { total := total
    learned := learned
    due := due
    averageEaseFactor := jsDiv (cards.foldl (fun sum c => sum + c.easeFactor) 0) total
    averageInterval := jsDiv (cards.foldl (fun sum c => sum + (c.interval : ℚ)) 0) total
    learningProgress := (jsDiv (learned : ℚ) (total : ℚ)).map (fun q => q * 100) }

/-- The `ratings` tally of a deck: one counter per rating token
(`INITIAL_RATINGS` in `App.tsx` initialises all four to 0). -/
structure RatingTally where
  again : ℕ
  hard : ℕ
  good : ℕ
  easy : ℕ
deriving DecidableEq, Repr

/-- `INITIAL_RATINGS = { again: 0, hard: 0, good: 0, easy: 0 }` (`App.tsx`). -/
def INITIAL_RATINGS : RatingTally := ⟨0, 0, 0, 0⟩

/-- `{ ...deck.ratings, [rating]: deck.ratings[rating] + 1 }` (`App.tsx`,
lines 260-263). -/
def RatingTally.bump (t : RatingTally) : Rating → RatingTally
  | Rating.again => { t with again := t.again + 1 }
  | Rating.hard => { t with hard := t.hard + 1 }
  | Rating.good => { t with good := t.good + 1 }
  | Rating.easy => { t with easy := t.easy + 1 }

/-- Sum of the four tally counters. -/
def RatingTally.sum (t : RatingTally) : ℕ := t.again + t.hard + t.good + t.easy

/-- A deck, embedding the `Deck` interface of `src/client/src/types/index.ts`
(the scheduling-relevant fields; `index` is the spec's cursor, `easy` on a
card is the spec's `retired`). -/
structure Deck where
  id : String
  name : String
  flashcards : List Card
  roundOrder : List ℕ
  index : ℕ
  round : ℕ
  roundFinished : Bool
  finished : Bool
  ratings : RatingTally
  ratingHistory : List Rating
  createdAt : ℤ
  lastStudied : ℤ
deriving DecidableEq, Repr

/-- The derived `currentCard` of `App.tsx` (line 100):
`roundOrder[index] !== undefined ? flashcards[roundOrder[index]] : null`,
with an out-of-range `flashcards[...]` likewise giving `none`. -/
def currentCard (deck : Deck) : Option Card :=
  match deck.roundOrder[deck.index]? with
  | some cardIdx => deck.flashcards[cardIdx]?
  | none => none

/-- The spec's three round-engine states. -/
inductive DeckState where
  | Reviewing
  | RoundComplete
  | DeckComplete
deriving DecidableEq, Repr

/-- The state of a deck as the two completion flags encode it: `App.tsx`
shows the completion overlay instead of the review card exactly when
`roundFinished` (lines 853 and 893), and `finished` marks that the whole
collection is retired (deck completion).  On every deck the engine itself
produces, `finished = true` only together with `roundFinished = true`. -/
def deckState (deck : Deck) : DeckState :=
  if deck.roundFinished then
    if deck.finished then DeckState.DeckComplete else DeckState.RoundComplete
  else DeckState.Reviewing

/-- The deck update of `handleRating` (`App.tsx`, lines 235-270): resolve the
current card, apply `reviewCard`, write it back, advance the cursor, recompute
the completion flags, append to the history and bump the tally.  The `none`
branches are the source's early returns (`cardIdx === undefined`,
`!deck.flashcards[cardIdx]`), which leave the deck unchanged. -/
def handleRating (deck : Deck) (rating : Rating) (now : ℤ) : Deck :=
  match deck.roundOrder[deck.index]? with
  | none => deck
  | some cardIdx =>
    match deck.flashcards[cardIdx]? with
    | none => deck
    | some card =>
      let updatedCard := reviewCard card rating now
      let updatedFlashcards := deck.flashcards.set cardIdx updatedCard
      let nextIndex := deck.index + 1
      { deck with
        flashcards := updatedFlashcards
        index := nextIndex
        roundFinished := decide (deck.roundOrder.length ≤ nextIndex)
        finished := updatedFlashcards.all (fun c => c.easy)
        ratingHistory := deck.ratingHistory ++ [rating]
        ratings := deck.ratings.bump rating
        lastStudied := now }

/-- Rating submission as the app exposes it: the four rating buttons — the
only call sites of `handleRating` — are rendered only while
`!roundFinished && currentCard` (`App.tsx`, line 893), so while the deck is
round- or deck-complete no submission reaches `handleRating` and the deck
stays as it is.  (When `currentCard` is `none`, `handleRating`'s own guards
return the deck unchanged as well, so the composition needs no second test.) -/
def submitRating (deck : Deck) (rating : Rating) (now : ℤ) : Deck :=
  if deck.roundFinished then deck else handleRating deck rating now

/-- Fold of `submitRating` over a list of ratings, all submitted at the same
injected instant. -/
def runRatings (deck : Deck) (rs : List Rating) (now : ℤ) : Deck :=
  rs.foldl (fun d r => submitRating d r now) deck

/-- The round-finished reset effect of `App.tsx` (lines 131-140): once the
cursor has run past the end of `roundOrder`, reset it to 0 and latch
`roundFinished`. -/
def roundResetEffect (deck : Deck) : Deck :=
  if deck.roundOrder.length ≤ deck.index then
    { deck with index := 0, roundFinished := true }
  else deck

/-- `handleRestart` (`App.tsx`, lines 273-296): the per-deck update applied to
the selected deck. -/
def handleRestart (deck : Deck) : Deck :=
  { deck with
    index := 0
    round := 1
    roundFinished := false
    roundOrder := List.range deck.flashcards.length
    flashcards := deck.flashcards.map (fun c => { c with easy := false })
    finished := false
    ratings := INITIAL_RATINGS
    ratingHistory := [] }

/-- The `unfinishedCards` reduce of `handleNextRound` (`App.tsx`,
lines 307-310), written with an explicit running index: collect the position
of every card with `easy = false`, in order, starting at position `k`. -/
def nonEasyPositionsFrom (k : ℕ) : List Card → List ℕ
  | [] => []
  | c :: tl =>
    if !c.easy then k :: nonEasyPositionsFrom (k + 1) tl
    else nonEasyPositionsFrom (k + 1) tl

/-- The positions of the cards with `easy = false`, in order. -/
def nonEasyPositions (cards : List Card) : List ℕ := nonEasyPositionsFrom 0 cards

/-- `handleNextRound` (`App.tsx`, lines 299-329): the per-deck update applied
to the selected deck. -/
def handleNextRound (deck : Deck) : Deck :=
  let unfinishedCards := nonEasyPositions deck.flashcards
  let order :=
    if 0 < unfinishedCards.length then unfinishedCards
    else List.range deck.flashcards.length
  { deck with
    index := 0
    round := deck.round + 1
    roundFinished := false
    roundOrder := order
    flashcards :=
      if unfinishedCards.length = 0 then
        deck.flashcards.map (fun c => { c with easy := false })
      else deck.flashcards
    finished := false }

/-- `handleImportDeck` (`App.tsx`, lines 357-373): the file is `JSON.parse`d
(`parsed = none` models a parse failure, the only caught error) and the
parsed deck is appended to the collection as is — no field of the deck is
inspected. -/
def handleImportDeck (decks : List Deck) (parsed : Option Deck) : List Deck :=
  match parsed with
  | some deck => decks ++ [deck]
  | none => decks

/-- Modelled from the spec (§3/§7 `InconsistentImport`), for comparison with
`handleImportDeck`: the validator the spec requires import to run —
`cursor ∈ [0, len(roundOrder)]`, every `roundOrder` entry an in-range item
position, and `len(ratingHistory)` equal to the sum of the `ratingTally`
counts.  No counterpart exists in the source. -/
def specImportValid (deck : Deck) : Bool :=
  decide (deck.index ≤ deck.roundOrder.length) &&
  deck.roundOrder.all (fun i => decide (i < deck.flashcards.length)) &&
  decide (deck.ratingHistory.length = deck.ratings.sum)

/-- Whether the card at position `i` exists and is non-retired; the pointwise
reading of the spec's "positions of the currently non-retired items". -/
def nonEasyAt (cards : List Card) (i : ℕ) : Bool :=
  (cards[i]?.map (fun c => !c.easy)).getD false

/-- A freshly created deck over a list of cards, as `handleGenerate`
(`App.tsx`, lines 197-220) and the sample-deck constructor build it:
`roundOrder` enumerates every card position, cursor 0, round 1, both
completion flags false, empty tally and history. -/
def mkDeck (id name : String) (cards : List Card) (now : ℤ) : Deck :=
  { id := id
    name := name
    flashcards := cards
    roundOrder := List.range cards.length
    index := 0
    round := 1
    roundFinished := false
    finished := false
    ratings := INITIAL_RATINGS
    ratingHistory := []
    createdAt := now
    lastStudied := now }

/-- A whole sequence of reviews, each at its own instant. -/
def reviewAll (c : Card) (reviews : List (Rating × ℤ)) : Card :=
  reviews.foldl (fun acc p => reviewCard acc p.1 p.2) c

/-- A concrete fresh card used as an input for witnesses. -/
def sampleCard : Card := createFlashcard "card-0" "What is the capital of France?" "Paris" 0

/-- A second concrete fresh card used as an input for witnesses. -/
def sampleCard2 : Card := createFlashcard "card-1" "What is the capital of Japan?" "Tokyo" 0

/-- A concrete imported deck violating all three §3 invariants that the spec
requires the importer to re-check: cursor `3` outside `[0, 1]`, `roundOrder` referencing
position `7` of an empty card list, and a `ratingHistory` of length 1 against
a tally summing to 0. -/
def badImportDeck : Deck :=
  { mkDeck "bad-id" "bad deck" [] 0 with
    index := 3
    roundOrder := [7]
    ratingHistory := [Rating.good] }

/-- A concrete round-complete deck: its single card was rated `good`, and the
reset effect has already latched `roundFinished` and re-pointed the cursor. -/
def sampleCompleteDeck : Deck :=
  roundResetEffect (submitRating (mkDeck "deck-0" "sample" [sampleCard] 0) Rating.good 0)

/-- A fresh one-card deck, already standing at the last cursor position of
its round. -/
def sampleStepDeck : Deck := mkDeck "deck-s" "single" [sampleCard] 0

/-!  ## Bridge lemmas for the arithmetic primitives -/

/-- `jsRound` agrees with the mathematical `⌊q + 1/2⌋`. -/
theorem jsRound_eq_floor (q : ℚ) : jsRound q = ⌊q + 1/2⌋ := by
  rw [jsRound, Rat.floor_def', Rat.floor_def]

/-- `jsMax` agrees with the lattice `max` on `ℚ`. -/
theorem jsMax_eq_max (a b : ℚ) : jsMax a b = max a b := (max_def a b).symm

/-!  ## Claims about the SM-2 scheduler -/

/-- **C1.**  The scheduler is a pure deterministic function of
`(item, rating, now)`: equal inputs give identical result items, and in the
result `dueDate = now + interval` days, `lastReviewed = now`, hence
`dueDate − lastReviewed = interval` days. -/
theorem claim1_scheduler_deterministic (c₁ c₂ : Card) (r₁ r₂ : Rating) (n₁ n₂ : ℤ)
    (hc : c₁ = c₂) (hr : r₁ = r₂) (hn : n₁ = n₂) :
    reviewCard c₁ r₁ n₁ = reviewCard c₂ r₂ n₂ ∧
    (reviewCard c₁ r₁ n₁).dueDate = n₁ + (reviewCard c₁ r₁ n₁).interval * ONE_DAY_MS ∧
    (reviewCard c₁ r₁ n₁).lastReviewed = some n₁ ∧
    (reviewCard c₁ r₁ n₁).dueDate - n₁ = (reviewCard c₁ r₁ n₁).interval * ONE_DAY_MS := by
  subst hc; subst hr; subst hn
  refine ⟨rfl, rfl, rfl, ?_⟩
  have h : (reviewCard c₁ r₁ n₁).dueDate
      = n₁ + (reviewCard c₁ r₁ n₁).interval * ONE_DAY_MS := rfl
  rw [h]
  exact add_sub_cancel_left n₁ _

/-- Witness for C1 at a concrete card, rating and instant. -/
theorem claim1_witness :
    reviewCard sampleCard Rating.good 5 = reviewCard sampleCard Rating.good 5 ∧
    (reviewCard sampleCard Rating.good 5).dueDate
      = 5 + (reviewCard sampleCard Rating.good 5).interval * ONE_DAY_MS ∧
    (reviewCard sampleCard Rating.good 5).lastReviewed = some 5 ∧
    (reviewCard sampleCard Rating.good 5).dueDate - 5
      = (reviewCard sampleCard Rating.good 5).interval * ONE_DAY_MS :=
  claim1_scheduler_deterministic sampleCard sampleCard Rating.good Rating.good 5 5 rfl rfl rfl

/-- **C2, counterexample.**  The claim says rating `again` yields
`retired = false` even when the input item has `retired = true`; in the code
the `again` branch never touches the `easy` flag, so an already-retired card
stays retired. -/
theorem claim2_counterexample :
    (reviewCard { sampleCard with easy := true } Rating.again 0).easy = true := by
  decide

/-- **C2, amended.**  For every item, rating `again` yields `interval = 1`,
`repetitions = 0`, `easeFactor = max(1.3, easeFactor − 0.2)`, and leaves the
`retired` flag unchanged (so it is `false` exactly when the input was
non-retired, the only case reachable through rounds). -/
theorem claim2_again_rules (c : Card) (n : ℤ) :
    (reviewCard c Rating.again n).interval = 1 ∧
    (reviewCard c Rating.again n).repetitions = 0 ∧
    (reviewCard c Rating.again n).easeFactor = max 1.3 (c.easeFactor - 0.2) ∧
    (reviewCard c Rating.again n).easy = c.easy := by
  refine ⟨rfl, rfl, ?_, rfl⟩
  show jsMax MIN_EASE_FACTOR (c.easeFactor - 0.2) = max 1.3 (c.easeFactor - 0.2)
  rw [jsMax_eq_max]; rfl

/-- **C6.**  Rating `easy` increments `repetitions`, adds `0.15` to
`easeFactor` with no ceiling, computes the new interval from the *updated*
ease factor as `max(1, round(interval × (easeFactor + 0.15) × 1.3))`, and
retires the item; instantiated at the spec's worked example
`{repetitions: 1, interval: 2, ease: 2.5}`. -/
theorem claim6_easy_rules (c : Card) (n : ℤ) :
    ((reviewCard c Rating.easy n).repetitions = c.repetitions + 1 ∧
     (reviewCard c Rating.easy n).easeFactor = c.easeFactor + 0.15 ∧
     (reviewCard c Rating.easy n).interval
       = max 1 (jsRound ((c.interval : ℚ) * (c.easeFactor + 0.15) * 1.3)) ∧
     (reviewCard c Rating.easy n).easy = true) ∧
    ((reviewCard { sampleCard with repetitions := 1, interval := 2 } Rating.easy 0).repetitions
        = 2 ∧
     (reviewCard { sampleCard with repetitions := 1, interval := 2 } Rating.easy 0).easeFactor
        = 2.65 ∧
     (reviewCard { sampleCard with repetitions := 1, interval := 2 } Rating.easy 0).interval
        = max 1 (jsRound ((2 : ℚ) * 2.65 * 1.3)) ∧
     (reviewCard { sampleCard with repetitions := 1, interval := 2 } Rating.easy 0).interval
        = 7 ∧
     (reviewCard { sampleCard with repetitions := 1, interval := 2 } Rating.easy 0).easy
        = true) := by
  refine ⟨⟨rfl, rfl, rfl, rfl⟩, ⟨rfl, by decide, by decide, by decide, rfl⟩⟩

/-!  ## Claims about the statistics aggregator -/

/-- **C10.**  `calculateStats` divides by the item count without a guard: on
the empty card list the divisor is `0`, so `averageEaseFactor`,
`averageInterval` and `learningProgress` are the non-finite JavaScript value
`NaN` (modelled `none`) rather than `0`, while `total`, `learned` and `due`
are `0`. -/
theorem claim10_stats_empty_division (now : ℤ) :
    calculateStats [] now =
      { total := 0, learned := 0, due := 0,
        averageEaseFactor := none, averageInterval := none,
        learningProgress := none } := by
  rfl

/-!  ## Claims about import -/

/-- **C5, counterexample.**  The claim says an imported deck violating the §3
invariants is rejected and not added; `handleImportDeck` appends the parsed
deck without inspecting a single field, so `badImportDeck` (invalid on all
three counts) is accepted into the collection. -/
theorem claim5_counterexample :
    specImportValid badImportDeck = false ∧
    handleImportDeck [] (some badImportDeck) = [badImportDeck] := by
  exact ⟨by decide, rfl⟩

/-- **C5, amended.**  Import validates nothing beyond JSON well-formedness:
every successfully parsed deck is appended to the collection unchanged,
whatever its `cursor`, `roundOrder` or tally/history fields hold, and only a
file that fails to parse is rejected, leaving the collection unchanged. -/
theorem claim5_import_no_validation (decks : List Deck) (d : Deck) :
    handleImportDeck decks (some d) = decks ++ [d] ∧
    handleImportDeck decks none = decks :=
  ⟨rfl, rfl⟩

/-- One review never pulls the ease factor below the 1.3 floor. -/
theorem reviewCard_easeFactor_lb (c : Card) (r : Rating) (n : ℤ)
    (h : MIN_EASE_FACTOR ≤ c.easeFactor) :
    MIN_EASE_FACTOR ≤ (reviewCard c r n).easeFactor := by
  cases r with
  | again =>
      show MIN_EASE_FACTOR ≤ jsMax MIN_EASE_FACTOR (c.easeFactor - 0.2)
      rw [jsMax_eq_max]; exact le_max_left _ _
  | hard =>
      show MIN_EASE_FACTOR ≤ jsMax MIN_EASE_FACTOR (c.easeFactor - 0.15)
      rw [jsMax_eq_max]; exact le_max_left _ _
  | good => exact h
  | easy =>
      show MIN_EASE_FACTOR ≤ c.easeFactor + 0.15
      have h15 : (0 : ℚ) ≤ 0.15 := by norm_num
      linarith

/-- Every review leaves the interval at least 1. -/
theorem reviewCard_interval_lb (c : Card) (r : Rating) (n : ℤ) :
    1 ≤ (reviewCard c r n).interval := by
  cases r with
  | again => exact le_refl 1
  | hard => exact le_max_left 1 _
  | good => exact le_max_left 1 _
  | easy => exact le_max_left 1 _

/-- The ease-factor floor survives any sequence of reviews. -/
theorem reviewAll_easeFactor_lb (reviews : List (Rating × ℤ)) :
    ∀ c : Card, MIN_EASE_FACTOR ≤ c.easeFactor →
      MIN_EASE_FACTOR ≤ (reviewAll c reviews).easeFactor := by
  induction reviews with
  | nil => intro c h; exact h
  | cons p tl ih => intro c h; exact ih _ (reviewCard_easeFactor_lb c p.1 p.2 h)

/-- **C7.**  From any item with `easeFactor ≥ 1.3`, every rating produces an
item with `easeFactor ≥ 1.3` and `interval ≥ 1`, and the ease factor stays
at or above 1.3 under every sequence of reviews. -/
theorem claim7_ease_floor (c : Card) (h : 1.3 ≤ c.easeFactor) :
    (∀ (r : Rating) (n : ℤ),
        1.3 ≤ (reviewCard c r n).easeFactor ∧ 1 ≤ (reviewCard c r n).interval) ∧
    (∀ reviews : List (Rating × ℤ), 1.3 ≤ (reviewAll c reviews).easeFactor) := by
  constructor
  · intro r n
    exact ⟨reviewCard_easeFactor_lb c r n h, reviewCard_interval_lb c r n⟩
  · intro reviews
    exact reviewAll_easeFactor_lb reviews c h

/-- Witness for C7 at a concrete card and concrete reviews. -/
theorem claim7_witness :
    ((1.3 : ℚ) ≤ sampleCard.easeFactor) ∧
    (1.3 ≤ (reviewCard sampleCard Rating.again 0).easeFactor ∧
      1 ≤ (reviewCard sampleCard Rating.again 0).interval) ∧
    1.3 ≤ (reviewAll sampleCard [(Rating.again, 0), (Rating.hard, 1)]).easeFactor :=
  ⟨by decide,
   (claim7_ease_floor sampleCard (by decide)).1 Rating.again 0,
   (claim7_ease_floor sampleCard (by decide)).2 [(Rating.again, 0), (Rating.hard, 1)]⟩

/-!  ## Claims about the round engine -/

/-- Clearing every card's `easy` flag leaves no retired card. -/
theorem all_not_easy_clear (l : List Card) :
    (l.map (fun c => { c with easy := false })).all (fun c => !c.easy) = true := by
  induction l with
  | nil => rfl
  | cons a tl ih => simp [ih]

/-- **C9.**  Restart, from any state, yields `round = 1`, cursor 0, an empty
history, an all-zero tally, no retired item, `roundOrder` enumerating the
full item set, and state `Reviewing`. -/
theorem claim9_restart (d : Deck) :
    (handleRestart d).round = 1 ∧
    (handleRestart d).index = 0 ∧
    (handleRestart d).ratingHistory = ([] : List Rating) ∧
    (handleRestart d).ratings = ⟨0, 0, 0, 0⟩ ∧
    (handleRestart d).flashcards.all (fun c => !c.easy) = true ∧
    (handleRestart d).roundOrder = List.range d.flashcards.length ∧
    deckState (handleRestart d) = DeckState.Reviewing := by
  exact ⟨rfl, rfl, rfl, rfl, all_not_easy_clear d.flashcards, rfl, rfl⟩

/-- `nonEasyPositionsFrom k` is the `k`-shifted filter of all in-range
positions by the card's non-retired flag. -/
theorem nonEasyPositionsFrom_eq_filter (cards : List Card) :
    ∀ k : ℕ, nonEasyPositionsFrom k cards
      = ((List.range cards.length).filter (fun i => nonEasyAt cards i)).map
          (fun i => i + k) := by
  induction cards with
  | nil => intro k; rfl
  | cons c tl ih =>
    intro k
    have hsucc : ∀ i : ℕ, nonEasyAt (c :: tl) (i + 1) = nonEasyAt tl i := by
      intro i; simp [nonEasyAt]
    have hmap :
        ((List.range tl.length).filter (fun i => nonEasyAt tl i)).map
            (fun i => i + (k + 1))
          = (((List.range tl.length).map (fun i => i + 1)).filter
              (fun i => nonEasyAt (c :: tl) i)).map (fun i => i + k) := by
      rw [List.filter_map]
      rw [List.map_map]
      have hf : ((fun i => nonEasyAt (c :: tl) i) ∘ fun i : ℕ => i + 1)
          = fun i => nonEasyAt tl i := by
        funext i; simp only [Function.comp_apply]; exact hsucc i
      rw [hf]
      have hg : ((fun i : ℕ => i + k) ∘ fun i : ℕ => i + 1)
          = fun i : ℕ => i + (k + 1) := by
        funext i; simp only [Function.comp_apply]; omega
      rw [hg]
    rw [List.length_cons, List.range_succ_eq_map]
    by_cases hc : c.easy
    · have hhead : nonEasyAt (c :: tl) 0 = false := by simp [nonEasyAt, hc]
      simp only [nonEasyPositionsFrom, hc]
      rw [List.filter_cons]
      simp only [hhead, ih (k + 1), hmap]
      rfl
    · have hhead : nonEasyAt (c :: tl) 0 = true := by simp [nonEasyAt, hc]
      simp only [nonEasyPositionsFrom, hc]
      rw [List.filter_cons]
      simp only [hhead, ih (k + 1), hmap]
      simp

/-- The number of collected positions is the number of non-retired cards. -/
theorem nonEasyPositionsFrom_length (cards : List Card) :
    ∀ k : ℕ, (nonEasyPositionsFrom k cards).length
      = cards.countP (fun c => !c.easy) := by
  induction cards with
  | nil => intro k; rfl
  | cons c tl ih =>
    intro k
    by_cases hc : c.easy <;>
      simp [nonEasyPositionsFrom, hc, ih (k + 1), List.countP_cons]

/-- **C8.**  The advance-round transition increments `round`, resets the
cursor to 0, and installs as `roundOrder` exactly the positions of the
non-retired items — the filter of all in-range positions by the non-retired
flag, whose length is the non-retired count — falling back to the full item
set when that filter is empty; the deck re-enters `Reviewing`. -/
theorem claim8_next_round (d : Deck) :
    (handleNextRound d).round = d.round + 1 ∧
    (handleNextRound d).index = 0 ∧
    (handleNextRound d).roundOrder
      = (if nonEasyPositions d.flashcards = [] then List.range d.flashcards.length
         else nonEasyPositions d.flashcards) ∧
    nonEasyPositions d.flashcards
      = (List.range d.flashcards.length).filter (fun i => nonEasyAt d.flashcards i) ∧
    (nonEasyPositions d.flashcards).length = d.flashcards.countP (fun c => !c.easy) ∧
    deckState (handleNextRound d) = DeckState.Reviewing := by
  refine ⟨rfl, rfl, ?_, ?_, nonEasyPositionsFrom_length d.flashcards 0, rfl⟩
  · show (if 0 < (nonEasyPositions d.flashcards).length then nonEasyPositions d.flashcards
        else List.range d.flashcards.length)
      = (if nonEasyPositions d.flashcards = [] then List.range d.flashcards.length
        else nonEasyPositions d.flashcards)
    by_cases h : nonEasyPositions d.flashcards = []
    · simp [h]
    · simp [h, List.length_pos.mpr h]
  · have h := nonEasyPositionsFrom_eq_filter d.flashcards 0
    simpa using h

/-- If a deck already shows a completion overlay (`roundFinished`), no rating
submission reaches `handleRating`, so the deck is unchanged. -/
theorem submitRating_of_roundFinished (d : Deck) (r : Rating) (n : ℤ)
    (hrf : d.roundFinished = true) : submitRating d r n = d := by
  simp [submitRating, hrf]

/-- **C4.**  A rating submitted while the deck is round- or deck-complete is
rejected and leaves every field of the deck unchanged — also after the
round-finished reset effect has re-pointed the cursor to 0. -/
theorem claim4_reject_when_complete (d : Deck) (r : Rating) (n : ℤ)
    (h : deckState d = DeckState.RoundComplete ∨ deckState d = DeckState.DeckComplete) :
    submitRating d r n = d ∧
    submitRating (roundResetEffect d) r n = roundResetEffect d := by
  have hrf : d.roundFinished = true := by
    cases hb : d.roundFinished with
    | true => rfl
    | false =>
      exfalso
      rcases h with h | h <;> simp [deckState, hb] at h
  have hrf' : (roundResetEffect d).roundFinished = true := by
    unfold roundResetEffect
    split <;> simp [hrf]
  exact ⟨submitRating_of_roundFinished d r n hrf,
    submitRating_of_roundFinished _ r n hrf'⟩

/-- Witness for C4 at a concrete round-complete deck. -/
theorem claim4_witness :
    (deckState sampleCompleteDeck = DeckState.RoundComplete ∨
      deckState sampleCompleteDeck = DeckState.DeckComplete) ∧
    (submitRating sampleCompleteDeck Rating.good 9 = sampleCompleteDeck ∧
      submitRating (roundResetEffect sampleCompleteDeck) Rating.good 9
        = roundResetEffect sampleCompleteDeck) :=
  ⟨Or.inl (by decide),
   claim4_reject_when_complete sampleCompleteDeck Rating.good 9 (Or.inl (by decide))⟩

/-- Writing at the seam of an append replaces the head of the right part. -/
theorem set_append_length (l₁ l₂ : List Card) (c x : Card) :
    (l₁ ++ c :: l₂).set l₁.length x = l₁ ++ x :: l₂ := by
  induction l₁ with
  | nil => rfl
  | cons a tl ih => simp [ih]

/-- `handleRating` unfolded at a state where both lookups succeed. -/
theorem handleRating_eq (d : Deck) (r : Rating) (n : ℤ) (ci : ℕ) (card : Card)
    (h1 : d.roundOrder[d.index]? = some ci)
    (h2 : d.flashcards[ci]? = some card) :
    handleRating d r n =
      { d with
        flashcards := d.flashcards.set ci (reviewCard card r n)
        index := d.index + 1
        roundFinished := decide (d.roundOrder.length ≤ d.index + 1)
        finished := (d.flashcards.set ci (reviewCard card r n)).all (fun c => c.easy)
        ratingHistory := d.ratingHistory ++ [r]
        ratings := d.ratings.bump r
        lastStudied := n } := by
  simp [handleRating, h1, h2]

/-- Driving a round from position `done.length` to its end: one submission
per remaining card reviews the remaining cards in order, finishes the round,
and leaves `finished` equal to "every card of the updated collection is
retired". -/
theorem runRatings_round (rs : List Rating) :
    ∀ (done todo : List Card) (d : Deck) (n : ℤ),
      d.flashcards = done ++ todo →
      d.roundOrder = List.range (done.length + todo.length) →
      d.index = done.length →
      d.roundFinished = false →
      rs.length = todo.length →
      todo ≠ [] →
      (runRatings d rs n).roundFinished = true ∧
      (runRatings d rs n).flashcards
        = done ++ List.zipWith (fun c r => reviewCard c r n) todo rs ∧
      (runRatings d rs n).finished
        = (done ++ List.zipWith (fun c r => reviewCard c r n) todo rs).all
            (fun c => c.easy) := by
  induction rs with
  | nil =>
    intro done todo d n _ _ _ _ hlen hne
    exact absurd (List.length_eq_zero.mp hlen.symm) hne
  | cons r rs' ih =>
    intro done todo d n hfc hro hix hrf hlen hne
    cases todo with
    | nil => exact absurd rfl hne
    | cons c todo' =>
      have hlen' : rs'.length = todo'.length := by simpa using hlen
      have hget1 : d.roundOrder[d.index]? = some done.length := by
        rw [hro, hix]
        exact List.getElem?_range (by simp)
      have hget2 : d.flashcards[done.length]? = some c := by
        rw [hfc, List.getElem?_append_right (le_refl done.length)]
        simp
      have hstep : submitRating d r n =
          { d with
            flashcards := (done ++ [reviewCard c r n]) ++ todo'
            index := done.length + 1
            roundFinished := decide (d.roundOrder.length ≤ d.index + 1)
            finished := ((done ++ [reviewCard c r n]) ++ todo').all (fun x => x.easy)
            ratingHistory := d.ratingHistory ++ [r]
            ratings := d.ratings.bump r
            lastStudied := n } := by
        have hset : d.flashcards.set done.length (reviewCard c r n)
            = (done ++ [reviewCard c r n]) ++ todo' := by
          rw [hfc, set_append_length]
          simp
        rw [show submitRating d r n = handleRating d r n by simp [submitRating, hrf],
          handleRating_eq d r n done.length c hget1 hget2, hset, hix]
      cases hrs' : rs' with
      | nil =>
        subst hrs'
        have htodo' : todo' = [] := List.length_eq_zero.mp hlen'.symm
        subst htodo'
        have hfin : decide (d.roundOrder.length ≤ d.index + 1) = true := by
          rw [hro, hix, List.length_range]
          simp
        refine ⟨?_, ?_, ?_⟩ <;> simp [runRatings, hstep, hfin]
      | cons r₀ rs₀ =>
        subst hrs'
        have htodo' : todo' ≠ [] := by
          intro hx
          rw [hx] at hlen'
          simp at hlen'
        have hnotfin : decide (d.roundOrder.length ≤ d.index + 1) = false := by
          rw [hro, hix, List.length_range, List.length_cons]
          have hpos : 0 < todo'.length := List.length_pos.mpr htodo'
          exact decide_eq_false (by omega)
        have happ := ih (done ++ [reviewCard c r n]) todo'
          (submitRating d r n) n
          (by rw [hstep])
          (by
            rw [hstep]
            show d.roundOrder
              = List.range ((done ++ [reviewCard c r n]).length + todo'.length)
            rw [hro, List.length_append, List.length_cons]
            congr 1
            simp
            omega)
          (by rw [hstep]; simp)
          (by rw [hstep]; exact hnotfin)
          hlen' htodo'
        have hrun : runRatings d (r :: r₀ :: rs₀) n
            = runRatings (submitRating d r n) (r₀ :: rs₀) n := rfl
        rw [hrun]
        refine ⟨happ.1, ?_, ?_⟩
        · rw [happ.2.1]
          simp
        · rw [happ.2.2]
          simp

/-- After one review, a card is retired iff the rating was `easy` or it was
already retired. -/
theorem reviewCard_easy_flag (c : Card) (r : Rating) (n : ℤ) :
    (reviewCard c r n).easy = (decide (r = Rating.easy) || c.easy) := by
  cases r <;> simp [reviewCard]

/-- Reviewing a batch of fresh (non-retired) cards, one rating each, retires
all of them exactly when every rating was `easy`. -/
theorem zipWith_review_all_easy (n : ℤ) (cards : List Card) :
    ∀ rs : List Rating, rs.length = cards.length →
      cards.all (fun c => !c.easy) = true →
      (List.zipWith (fun c r => reviewCard c r n) cards rs).all (fun c => c.easy)
        = rs.all (fun r => decide (r = Rating.easy)) := by
  induction cards with
  | nil =>
    intro rs hlen _
    rw [List.length_eq_zero.mp hlen]
    rfl
  | cons c tl ih =>
    intro rs hlen hfresh
    cases rs with
    | nil => simp at hlen
    | cons r rs' =>
      have hc : c.easy = false := by
        simp at hfresh
        simpa using hfresh.1
      have htl : tl.all (fun x => !x.easy) = true := by
        simp at hfresh
        simpa using hfresh.2
      simp only [List.zipWith_cons_cons, List.all_cons]
      rw [ih rs' (by simpa using hlen) htl, reviewCard_easy_flag, hc]
      simp

/-- **C3.**  When an accepted rating advances the cursor past the end of
`roundOrder`, the deck enters `DeckComplete` exactly when no card of the
whole (just-updated) collection is still non-retired, and `RoundComplete`
otherwise; in particular a fresh `N`-card deck given one rating per card ends
in `DeckComplete` iff all `N` ratings were `easy`, and in `RoundComplete`
otherwise. -/
theorem claim3_round_end_classification :
    (∀ (d : Deck) (r : Rating) (n : ℤ),
        d.roundFinished = false →
        (currentCard d).isSome = true →
        d.roundOrder.length ≤ d.index + 1 →
        deckState (submitRating d r n)
          = (if (submitRating d r n).flashcards.all (fun c => c.easy) then
              DeckState.DeckComplete
            else DeckState.RoundComplete)) ∧
    (∀ (id name : String) (cards : List Card) (rs : List Rating) (created n : ℤ),
        0 < cards.length →
        rs.length = cards.length →
        cards.all (fun c => !c.easy) = true →
        deckState (runRatings (mkDeck id name cards created) rs n)
          = (if rs.all (fun r => decide (r = Rating.easy)) then DeckState.DeckComplete
            else DeckState.RoundComplete)) := by
  constructor
  · intro d r n hrf hcc hend
    have hsub : submitRating d r n = handleRating d r n := by simp [submitRating, hrf]
    rcases h1 : d.roundOrder[d.index]? with _ | ci
    · simp only [currentCard, h1, Option.isSome_none] at hcc
      exact absurd hcc Bool.false_ne_true
    rcases h2 : d.flashcards[ci]? with _ | card
    · simp only [currentCard, h1, h2, Option.isSome_none] at hcc
      exact absurd hcc Bool.false_ne_true
    rw [hsub, handleRating_eq d r n ci card h1 h2]
    simp [deckState, hend]
  · intro id name cards rs created n hpos hlen hfresh
    have hne : cards ≠ [] := by
      intro hx
      rw [hx] at hpos
      simp at hpos
    have happ := runRatings_round rs [] cards (mkDeck id name cards created) n
      rfl (by simp [mkDeck]) rfl rfl (by simpa using hlen) hne
    have hfin := happ.2.2
    rw [List.nil_append] at hfin
    rw [zipWith_review_all_easy n cards rs hlen hfresh] at hfin
    rw [deckState, happ.1, hfin]
    simp

/-- Witness for C3: a non-`easy` rating on the last card ends the round in
`RoundComplete`; an all-`easy` run over a fresh two-card deck ends in
`DeckComplete`. -/
theorem claim3_witness :
    deckState (submitRating sampleStepDeck Rating.good 1) = DeckState.RoundComplete ∧
    deckState (runRatings (mkDeck "deck-1" "pair" [sampleCard, sampleCard2] 0)
        [Rating.easy, Rating.easy] 3) = DeckState.DeckComplete :=
  ⟨(claim3_round_end_classification.1 sampleStepDeck Rating.good 1
      (by decide) (by decide) (by decide)).trans (by decide),
   (claim3_round_end_classification.2 "deck-1" "pair" [sampleCard, sampleCard2]
      [Rating.easy, Rating.easy] 0 3 (by decide) (by decide) (by decide)).trans
      (by decide)⟩

end Ikna
